import Mathlib

/-!
Shallow embedding of the DocuCon repository (document lifecycle backend):
the chunker (`app/services/document_processor.py`), the mock vector store and
mock external document system (`app/services/vector_store.py`,
`app/services/mock_doc_system.py`), the document API handlers
(`app/api/documents.py`) over an explicit application state, and the login
handler (`app/api/auth.py`).  Strings are modelled as `List Char`, uuid4
identifiers as counter-generated naturals, and timestamps as booleans
("has been stamped").
-/

namespace DocuCon

/-- The body of the `while start < len(text)` loop of
`DocumentProcessor.chunk_text` (src/app/services/document_processor.py,
lines 34-42), with explicit fuel.  Each iteration appends the slice
`text[start : start + chunk_size]`, then advances `start` by
`chunk_size - overlap` over the integers and clamps a negative result to `0`
(the `if start < 0: start = 0` guard). -/
def chunkLoop (text : List Char) (size overlap : Nat) : Nat → Nat → List (List Char)
  | _, 0 => []
  | start, fuel + 1 =>
    if start < text.length then
      (text.drop start).take size ::
        chunkLoop text size overlap
          (((start : Int) + (size : Int) - (overlap : Int)).toNat) fuel
    else []

/-- `DocumentProcessor.chunk_text(text, chunk_size=500, overlap=50)`:
returns `[]` on empty text (the `if not text` guard), otherwise runs the
while loop from `start = 0`.  The fuel `text.length + 1` is enough for every
terminating run of the Python loop: whenever `overlap < size` the loop makes
at most `text.length` iterations. -/
def chunk_text (text : List Char) (size overlap : Nat) : List (List Char) :=
  if text.isEmpty then [] else chunkLoop text size overlap 0 (text.length + 1)

/-- Number of iterations the chunk loop performs on a text of length `len`
with positive advance `step`: the ceiling `⌈len / step⌉` in natural-number
division. -/
def nChunks (len step : Nat) : Nat := (len + step - 1) / step

theorem nChunks_zero (step : Nat) : nChunks 0 step = 0 := by
  unfold nChunks
  rcases Nat.eq_zero_or_pos step with h | h
  · subst h; rfl
  · exact Nat.div_eq_of_lt (by omega)

theorem nChunks_succ (len step : Nat) (hl : 0 < len) (hs : 0 < step) :
    nChunks len step = nChunks (len - step) step + 1 := by
  unfold nChunks
  rcases le_or_lt step len with h | h
  · have h1 : len + step - 1 = (len - step + step - 1) + step := by omega
    rw [h1, Nat.add_div_right _ hs]
  · have h2 : len - step = 0 := by omega
    rw [h2]
    have h3 : (0 + step - 1) / step = 0 := Nat.div_eq_of_lt (by omega)
    have h4 : (len + step - 1) / step = 1 := by
      apply Nat.div_eq_of_lt_le
      · omega
      · omega
    omega

theorem lt_nChunks_iff (i len step : Nat) (hs : 0 < step) :
    i < nChunks len step ↔ i * step < len := by
  unfold nChunks
  have h1 : i < (len + step - 1) / step ↔ i + 1 ≤ (len + step - 1) / step := Iff.rfl
  rw [h1, Nat.le_div_iff_mul_le hs, add_one_mul]
  generalize i * step = a
  omega

theorem chunkLoop_eq (text : List Char) (size overlap : Nat) (h : overlap < size) :
    ∀ fuel start, text.length ≤ start + fuel →
      chunkLoop text size overlap start fuel =
        (List.range (nChunks (text.length - start) (size - overlap))).map
          (fun i => (text.drop (start + i * (size - overlap))).take size) := by
  intro fuel
  induction fuel with
  | zero =>
    intro start hle
    have h0 : text.length - start = 0 := by omega
    rw [h0, nChunks_zero]
    simp [chunkLoop]
  | succ fuel ih =>
    intro start hle
    by_cases hlt : start < text.length
    · have hstep : 0 < size - overlap := by omega
      have htn : (((start : Int) + (size : Int) - (overlap : Int)).toNat)
          = start + (size - overlap) := by omega
      rw [chunkLoop, if_pos hlt, htn, ih (start + (size - overlap)) (by omega)]
      have hrec : nChunks (text.length - start) (size - overlap)
          = nChunks (text.length - (start + (size - overlap))) (size - overlap) + 1 := by
        have hsub : text.length - start - (size - overlap)
            = text.length - (start + (size - overlap)) := by omega
        rw [nChunks_succ (text.length - start) (size - overlap) (by omega) hstep, hsub]
      rw [hrec, List.range_succ_eq_map, List.map_cons, List.map_map]
      congr 1
      · simp
      · have hfun : ((fun i => (text.drop (start + i * (size - overlap))).take size)
            ∘ Nat.succ)
            = fun i => (text.drop (start + (size - overlap) + i * (size - overlap))).take size := by
          funext i
          have harg : start + Nat.succ i * (size - overlap)
              = start + (size - overlap) + i * (size - overlap) := by
            rw [Nat.succ_mul]; ring
          simp [Function.comp, harg]
        rw [hfun]
    · rw [chunkLoop, if_neg hlt]
      have h0 : text.length - start = 0 := by omega
      rw [h0, nChunks_zero]
      simp

theorem chunk_text_eq (text : List Char) (size overlap : Nat) (h : overlap < size) :
    chunk_text text size overlap =
      (List.range (nChunks text.length (size - overlap))).map
        (fun i => (text.drop (i * (size - overlap))).take size) := by
  unfold chunk_text
  by_cases he : text.isEmpty
  · rw [if_pos he]
    have h0 : text.length = 0 := by
      rcases List.isEmpty_iff.mp he with rfl
      rfl
    rw [h0, nChunks_zero]
    simp
  · rw [if_neg he, chunkLoop_eq text size overlap h (text.length + 1) 0 (by omega)]
    simp

theorem chunk_text_length (text : List Char) (size overlap : Nat) (h : overlap < size) :
    (chunk_text text size overlap).length = nChunks text.length (size - overlap) := by
  rw [chunk_text_eq text size overlap h]
  simp

/-! ## Mock external services -/

/-- `MockVectorStore` (src/app/services/vector_store.py): an in-memory map
from embedding id to vector.  `uuid.uuid4()` id generation is modelled by the
counter `next`, which produces ids that never collide with a previously
issued id; the map is an association list with the most recent insertion
first.  The vector type `V` is kept abstract because
`generate_mock_embedding` returns random floats whose values callers must
not depend on. -/
structure VStore (V : Type) where
  store : List (Nat × V)
  next : Nat
deriving DecidableEq

/-- `MockVectorStore.add_embedding`: store the vector under a fresh id and
return the id. -/
def VStore.add_embedding (s : VStore V) (v : V) : Nat × VStore V :=
  (s.next, ⟨(s.next, v) :: s.store, s.next + 1⟩)

/-- `MockVectorStore.get_embedding`: dictionary lookup; `None` when the id is
absent. -/
def VStore.get_embedding (s : VStore V) (eid : Nat) : Option V :=
  (s.store.find? (fun p => p.1 == eid)).map (fun p => p.2)

/-- `MockVectorStore.delete_embedding`: remove the entry and report whether
it existed. -/
def VStore.delete_embedding (s : VStore V) (eid : Nat) : Bool × VStore V :=
  if s.store.any (fun p => p.1 == eid) then
    (true, ⟨s.store.filter (fun p => p.1 != eid), s.next⟩)
  else
    (false, s)

/-- Entry of `MockDocumentSystem._documents` (src/app/services/mock_doc_system.py):
the stored `title`/`content` pair (the stored `mock_system_id` field equals
the key and is dropped). -/
structure SysDoc where
  title : String
  content : List Char
deriving DecidableEq

/-- `MockDocumentSystem`: in-memory external document store keyed by
uuid-generated ids, modelled by a counter as in `VStore`. -/
structure DStore where
  store : List (Nat × SysDoc)
  next : Nat
deriving DecidableEq

/-- `MockDocumentSystem.upload_document`: store title/content under a fresh
`mock_system_id` and return it. -/
def DStore.upload_document (s : DStore) (title : String) (content : List Char) :
    Nat × DStore :=
  (s.next, ⟨(s.next, ⟨title, content⟩) :: s.store, s.next + 1⟩)

/-- `MockDocumentSystem.get_document_content`: return the stored content, or
`None` when the id is absent. -/
def DStore.get_document_content (s : DStore) (sid : Nat) : Option (List Char) :=
  (s.store.find? (fun p => p.1 == sid)).map (fun p => p.2.content)

/-- `MockDocumentSystem.delete_document`: remove the entry and report whether
it existed. -/
def DStore.delete_document (s : DStore) (sid : Nat) : Bool × DStore :=
  if s.store.any (fun p => p.1 == sid) then
    (true, ⟨s.store.filter (fun p => p.1 != sid), s.next⟩)
  else
    (false, s)

/-! ## Database rows and application state -/

/-- Row of the `documents` table (src/app/db/models.py, `Document`).
`processed` models whether `processed_at` is non-null; the wall-clock value
is irrelevant to every claim.  Creation/update timestamps are omitted for the
same reason. -/
structure DocRow where
  id : Nat
  title : String
  content : List Char
  owner_id : Nat
  mock_system_id : Nat
  processed : Bool
deriving DecidableEq

/-- Row of the `document_chunks` table (src/app/db/models.py,
`DocumentChunk`).  `embedding_id` is nullable in the schema. -/
structure ChunkRow where
  id : Nat
  document_id : Nat
  chunk_text : List Char
  chunk_order : Nat
  embedding_id : Option Nat
deriving DecidableEq

/-- The whole application state as seen by one request: the committed
database tables (with their id sequences) plus the two process-wide mock
services. -/
structure State (V : Type) where
  docs : List DocRow
  chunks : List ChunkRow
  nextDocId : Nat
  nextChunkId : Nat
  vs : VStore V
  ds : DStore
deriving DecidableEq

/-- Domain error raised by a handler (src/app/core/exceptions.py).  The
create/update/delete handlers interpolate the caught exception into the
detail string; the not-found and invalid-credentials sites raise with the
class defaults recorded in `errDetail`. -/
inductive Err
  | documentNotFound
  | documentProcessing
  | databaseOperation
  | invalidCredentials
deriving DecidableEq

/-- HTTP status of each exception class. -/
def errStatus : Err → Nat
  | .documentNotFound => 404
  | .documentProcessing => 500
  | .databaseOperation => 500
  | .invalidCredentials => 401

/-- Default detail string of each exception class. -/
def errDetail : Err → String
  | .documentNotFound => "Document not found"
  | .documentProcessing => "Document processing failed"
  | .databaseOperation => "Database operation failed"
  | .invalidCredentials => "Could not validate credentials"

/-- The ownership-scoped lookup shared by the document handlers:
`select(Document).where(Document.id == document_id, Document.owner_id ==
current_user.id)` followed by `scalar_one_or_none()`. -/
def getOwned (st : State V) (did uid : Nat) : Option DocRow :=
  st.docs.find? (fun d => d.id == did && d.owner_id == uid)

/-- The chunks of one document, as stored in the table:
`select(DocumentChunk).where(DocumentChunk.document_id == document_id)`. -/
def chunksOf (st : State V) (did : Nat) : List ChunkRow :=
  st.chunks.filter (fun c => c.document_id == did)

/-- Insertion step of the `ORDER BY chunk_order` sort used by
`get_document_chunks`. -/
def insertByOrder (c : ChunkRow) : List ChunkRow → List ChunkRow
  | [] => [c]
  | x :: xs =>
    if c.chunk_order ≤ x.chunk_order then c :: x :: xs else x :: insertByOrder c xs

/-- Stable sort by `chunk_order` ascending, modelling the SQL
`order_by(DocumentChunk.chunk_order)`. -/
def sortByOrder : List ChunkRow → List ChunkRow
  | [] => []
  | x :: xs => insertByOrder x (sortByOrder xs)

/-! ## Document handlers (src/app/api/documents.py) -/

/-- `GET /documents/{id}` (`get_document`): ownership-scoped lookup,
`DocumentNotFoundException` when absent or owned by someone else. -/
def get_document (st : State V) (uid did : Nat) : Except Err DocRow :=
  match getOwned st did uid with
  | none => .error .documentNotFound
  | some d => .ok d

/-- `GET /documents/{id}/chunks` (`get_document_chunks`): verify ownership
first, then return the document's chunks ordered by `chunk_order`. -/
def get_document_chunks (st : State V) (uid did : Nat) : Except Err (List ChunkRow) :=
  match getOwned st did uid with
  | none => .error .documentNotFound
  | some _ => .ok (sortByOrder (chunksOf st did))

/-- The per-chunk loop of `create_document` (lines 58-71): for chunk `i`,
generate a mock embedding, `add_embedding` it (an external effect that
persists even if a later step fails), and `db.add` a pending
`DocumentChunk(document_id, chunk_text, chunk_order=i, embedding_id)` row.
`failAt` injects an exception at the numbered step; pending rows carry a
placeholder id `0` until they are committed. -/
def addChunksLoop (gen : List Char → V) (failAt : Option Nat) (docId : Nat) :
    Nat → Nat → List (List Char) → VStore V → Except Unit (List ChunkRow) × VStore V
  | _, _, [], vs => (.ok [], vs)
  | step, i, c :: rest, vs =>
    if failAt = some step then (.error (), vs)
    else
      let r := vs.add_embedding (gen c)
      match addChunksLoop gen failAt docId (step + 1) (i + 1) rest r.2 with
      | (.ok rows, vs2) =>
          (.ok ({ id := 0, document_id := docId, chunk_text := c,
                  chunk_order := i, embedding_id := some r.1 } :: rows), vs2)
      | (.error e, vs2) => (.error e, vs2)

/-- The same per-chunk loop as duplicated in `update_document`
(lines 180-192), without failure injection (the claims about update concern
its successful runs). -/
def addChunks (gen : List Char → V) (docId : Nat) :
    Nat → List (List Char) → VStore V → List ChunkRow × VStore V
  | _, [], vs => ([], vs)
  | i, c :: rest, vs =>
    let r := vs.add_embedding (gen c)
    let next := addChunks gen docId (i + 1) rest r.2
    ({ id := 0, document_id := docId, chunk_text := c,
       chunk_order := i, embedding_id := some r.1 } :: next.1, next.2)

/-- Commit-time assignment of primary keys to pending chunk rows. -/
def assignChunkIds (base : Nat) : List ChunkRow → List ChunkRow
  | [] => []
  | c :: rest => { c with id := base } :: assignChunkIds (base + 1) rest

/-- The `for chunk in chunks: if chunk.embedding_id:
mock_vector_store.delete_embedding(chunk.embedding_id)` loops of
`update_document` and `delete_document`. -/
def deleteEmbeddings : VStore V → List ChunkRow → VStore V
  | vs, [] => vs
  | vs, c :: rest =>
    match c.embedding_id with
    | some eid => deleteEmbeddings (vs.delete_embedding eid).2 rest
    | none => deleteEmbeddings vs rest

/-- `POST /documents/` (`create_document`): (0) upload to the mock document
system, (1) insert the Document row (flushed, not committed), (2) extract and
chunk the text (with the source defaults `chunk_size=500, overlap=50`),
(3+i) per-chunk embedding and pending chunk row, (3+n) stamp `processed_at`,
(4+n) commit.  `failAt = some k` injects an exception at step `k`; the
`except` clause rolls the transaction back (the committed tables are
unchanged) and raises `DocumentProcessingException`, while external
mock-service effects performed before the failure persist. -/
def create_document (st : State V) (uid : Nat) (title : String) (content : List Char)
    (gen : List Char → V) (failAt : Option Nat) : Except Err DocRow × State V :=
  if failAt = some 0 then (.error .documentProcessing, st)
  else
    let up := st.ds.upload_document title content
    let st1 : State V := { st with ds := up.2 }
    if failAt = some 1 then (.error .documentProcessing, st1)
    else if failAt = some 2 then (.error .documentProcessing, st1)
    else
      let docId := st.nextDocId
      let cs := chunk_text content 500 50
      match addChunksLoop gen failAt docId 3 0 cs st1.vs with
      | (.error _, vs2) => (.error .documentProcessing, { st1 with vs := vs2 })
      | (.ok rows, vs2) =>
        if failAt = some (3 + cs.length) then
          (.error .documentProcessing, { st1 with vs := vs2 })
        else if failAt = some (4 + cs.length) then
          (.error .documentProcessing, { st1 with vs := vs2 })
        else
          let doc : DocRow := { id := docId, title := title, content := content,
                                owner_id := uid, mock_system_id := up.1,
                                processed := true }
          (.ok doc,
           { docs := st.docs ++ [doc],
             chunks := st.chunks ++ assignChunkIds st.nextChunkId rows,
             nextDocId := st.nextDocId + 1,
             nextChunkId := st.nextChunkId + rows.length,
             vs := vs2,
             ds := up.2 })

/-- `PUT /documents/{id}` (`update_document`): ownership-scoped load
(not-found otherwise); title applied when provided; when content is provided
and differs from the current content (exact string inequality) the handler
deletes every embedding of the document's chunks from the vector store,
deletes the chunk rows, recomputes chunks and embeddings from the new
content, stamps `processed_at`, and commits; otherwise no chunk work occurs
and the title change alone is committed. -/
def update_document (st : State V) (uid did : Nat)
    (newTitle : Option String) (newContent : Option (List Char))
    (gen : List Char → V) : Except Err DocRow × State V :=
  match getOwned st did uid with
  | none => (.error .documentNotFound, st)
  | some d =>
    let d1 := match newTitle with
      | none => d
      | some t => { d with title := t }
    match newContent with
    | some c =>
      if d.content ≠ c then
        let d2 := { d1 with content := c, processed := true }
        let vs1 := deleteEmbeddings st.vs (chunksOf st did)
        let cs := chunk_text c 500 50
        let added := addChunks gen did 0 cs vs1
        (.ok d2,
         { st with
           docs := st.docs.map (fun x => if x.id == did then d2 else x),
           chunks := (st.chunks.filter (fun ch => ch.document_id != did))
                       ++ assignChunkIds st.nextChunkId added.1,
           nextChunkId := st.nextChunkId + added.1.length,
           vs := added.2 })
      else
        (.ok d1, { st with docs := st.docs.map (fun x => if x.id == did then d1 else x) })
    | none =>
      (.ok d1, { st with docs := st.docs.map (fun x => if x.id == did then d1 else x) })

/-- `DELETE /documents/{id}` (`delete_document`): ownership-scoped load
(not-found otherwise); delete the external-store entry, delete each chunk's
embedding, delete the Document row (chunk rows cascade), commit. -/
def delete_document (st : State V) (uid did : Nat) : Except Err Unit × State V :=
  match getOwned st did uid with
  | none => (.error .documentNotFound, st)
  | some d =>
    let ds1 := (st.ds.delete_document d.mock_system_id).2
    let vs1 := deleteEmbeddings st.vs (chunksOf st did)
    (.ok (),
     { st with
       docs := st.docs.filter (fun x => x.id != did),
       chunks := st.chunks.filter (fun c => c.document_id != did),
       vs := vs1,
       ds := ds1 })

/-! ## Authentication (src/app/api/auth.py) -/

/-- Row of the `users` table (src/app/db/models.py, `User`). -/
structure UserRow where
  id : Nat
  email : String
  hashed_password : String
  is_active : Bool
deriving DecidableEq

/-- `POST /auth/token` (`login_for_access_token`): look the user up by email
(the form's `username`); raise `InvalidCredentialsException` when the user is
absent or the password does not verify against the stored hash; otherwise
issue a token for `{sub: email, id: user.id}`.  Password verification
(`passlib` bcrypt) is abstracted as the `verify` parameter. -/
def login_for_access_token (verify : String → String → Bool)
    (users : List UserRow) (username password : String) : Except Err (Nat × String) :=
  match users.find? (fun u => u.email == username) with
  | none => .error .invalidCredentials
  | some u =>
    if verify password u.hashed_password then .ok (u.id, u.email)
    else .error .invalidCredentials

/-! ## Store lemmas -/

theorem VStore.delete_embedding_store (s : VStore V) (eid : Nat) :
    ((s.delete_embedding eid).2).store = s.store.filter (fun p => p.1 != eid) ∧
    ((s.delete_embedding eid).2).next = s.next := by
  unfold VStore.delete_embedding
  by_cases h : s.store.any (fun p => p.1 == eid)
  · rw [if_pos h]
    exact ⟨rfl, rfl⟩
  · rw [if_neg h]
    refine ⟨?_, rfl⟩
    symm
    apply List.filter_eq_self.mpr
    intro p hp
    by_cases hc : p.1 = eid
    · exact absurd (List.any_eq_true.mpr ⟨p, hp, by simp [hc]⟩) h
    · simp [hc]

theorem DStore.delete_document_store (s : DStore) (sid : Nat) :
    ((s.delete_document sid).2).store = s.store.filter (fun p => p.1 != sid) ∧
    ((s.delete_document sid).2).next = s.next := by
  unfold DStore.delete_document
  by_cases h : s.store.any (fun p => p.1 == sid)
  · rw [if_pos h]
    exact ⟨rfl, rfl⟩
  · rw [if_neg h]
    refine ⟨?_, rfl⟩
    symm
    apply List.filter_eq_self.mpr
    intro p hp
    by_cases hc : p.1 = sid
    · exact absurd (List.any_eq_true.mpr ⟨p, hp, by simp [hc]⟩) h
    · simp [hc]

theorem deleteEmbeddings_spec (cs : List ChunkRow) (vs : VStore V) :
    (deleteEmbeddings vs cs).next = vs.next ∧
    ∀ q, q ∈ (deleteEmbeddings vs cs).store ↔
      (q ∈ vs.store ∧ ∀ ch ∈ cs, ch.embedding_id ≠ some q.1) := by
  induction cs generalizing vs with
  | nil => simp [deleteEmbeddings]
  | cons c rest ih =>
    cases hc : c.embedding_id with
    | none =>
      rw [deleteEmbeddings, hc]
      refine ⟨(ih vs).1, fun q => ?_⟩
      rw [(ih vs).2 q]
      simp [hc]
    | some eid =>
      rw [deleteEmbeddings, hc]
      refine ⟨?_, fun q => ?_⟩
      · rw [(ih _).1, (VStore.delete_embedding_store vs eid).2]
      · rw [(ih _).2 q, (VStore.delete_embedding_store vs eid).1]
        simp only [List.mem_filter, hc]
        constructor
        · rintro ⟨⟨hq, hne⟩, hrest⟩
          refine ⟨hq, ?_⟩
          intro ch hch
          rcases List.mem_cons.mp hch with rfl | hch2
          · rw [hc]
            intro hcon
            rw [Option.some_inj.mp hcon] at hne
            simp at hne
          · exact hrest ch hch2
        · rintro ⟨hq, hall⟩
          have h1 := hall c (by simp)
          rw [hc] at h1
          refine ⟨⟨hq, ?_⟩, fun ch hch => hall ch (by simp [hch])⟩
          simpa using fun hcon => h1 (by rw [hcon])

/-- C10: round-trip and deletion laws of the two in-memory mock services
(`MockVectorStore` and `MockDocumentSystem`): fetching a freshly added
entry returns the stored value; after a successful delete the fetch is
not-found; deleting an absent id returns `false` and leaves the store
unchanged. -/
theorem mock_store_laws (V : Type) :
    (∀ (s : VStore V) (v : V),
      ((s.add_embedding v).2).get_embedding (s.add_embedding v).1 = some v) ∧
    (∀ (s : VStore V) (eid : Nat), (s.delete_embedding eid).1 = true →
      ((s.delete_embedding eid).2).get_embedding eid = none) ∧
    (∀ (s : VStore V) (eid : Nat), s.get_embedding eid = none →
      s.delete_embedding eid = (false, s)) ∧
    (∀ (d : DStore) (t : String) (c : List Char),
      ((d.upload_document t c).2).get_document_content (d.upload_document t c).1
        = some c) ∧
    (∀ (d : DStore) (sid : Nat), (d.delete_document sid).1 = true →
      ((d.delete_document sid).2).get_document_content sid = none) ∧
    (∀ (d : DStore) (sid : Nat), d.get_document_content sid = none →
      d.delete_document sid = (false, d)) := by
  refine ⟨?_, ?_, ?_, ?_, ?_, ?_⟩
  · intro s v
    simp [VStore.add_embedding, VStore.get_embedding, List.find?]
  · intro s eid _
    unfold VStore.get_embedding
    rw [(VStore.delete_embedding_store s eid).1]
    have hfind : (s.store.filter (fun p => p.1 != eid)).find? (fun p => p.1 == eid)
        = none := by
      rw [List.find?_eq_none]
      intro p hp
      have := (List.mem_filter.mp hp).2
      simpa using this
    rw [hfind]
    rfl
  · intro s eid h
    unfold VStore.get_embedding at h
    have hfind : s.store.find? (fun p => p.1 == eid) = none := by
      cases hf : s.store.find? (fun p => p.1 == eid) with
      | none => rfl
      | some p => rw [hf] at h; simp at h
    unfold VStore.delete_embedding
    rw [if_neg]
    intro hany
    rcases List.any_eq_true.mp hany with ⟨p, hp, hpe⟩
    have := List.find?_eq_none.mp hfind p hp
    simp at hpe this
    exact this hpe
  · intro d t c
    simp [DStore.upload_document, DStore.get_document_content, List.find?]
  · intro d sid _
    unfold DStore.get_document_content
    rw [(DStore.delete_document_store d sid).1]
    have hfind : (d.store.filter (fun p => p.1 != sid)).find? (fun p => p.1 == sid)
        = none := by
      rw [List.find?_eq_none]
      intro p hp
      have := (List.mem_filter.mp hp).2
      simpa using this
    rw [hfind]
    rfl
  · intro d sid h
    unfold DStore.get_document_content at h
    have hfind : d.store.find? (fun p => p.1 == sid) = none := by
      cases hf : d.store.find? (fun p => p.1 == sid) with
      | none => rfl
      | some p => rw [hf] at h; simp at h
    unfold DStore.delete_document
    rw [if_neg]
    intro hany
    rcases List.any_eq_true.mp hany with ⟨p, hp, hpe⟩
    have := List.find?_eq_none.mp hfind p hp
    simp at hpe this
    exact this hpe

/-- Witness for `mock_store_laws` at concrete inputs. -/
theorem mock_store_laws_witness :
    ((⟨[], 0⟩ : VStore Nat).add_embedding 7).2.get_embedding
        ((⟨[], 0⟩ : VStore Nat).add_embedding 7).1 = some 7 ∧
    ((⟨[(0, 7)], 1⟩ : VStore Nat).delete_embedding 0).1 = true ∧
    (((⟨[(0, 7)], 1⟩ : VStore Nat).delete_embedding 0).2).get_embedding 0 = none ∧
    (⟨[(0, 7)], 1⟩ : VStore Nat).get_embedding 5 = none ∧
    (⟨[(0, 7)], 1⟩ : VStore Nat).delete_embedding 5 = (false, ⟨[(0, 7)], 1⟩) ∧
    ((⟨[], 0⟩ : DStore).upload_document "t" ['a']).2.get_document_content
        ((⟨[], 0⟩ : DStore).upload_document "t" ['a']).1 = some ['a'] ∧
    ((⟨[(3, ⟨"t", ['a']⟩)], 4⟩ : DStore).delete_document 3).1 = true ∧
    (((⟨[(3, ⟨"t", ['a']⟩)], 4⟩ : DStore).delete_document 3).2).get_document_content 3
      = none ∧
    (⟨[(3, ⟨"t", ['a']⟩)], 4⟩ : DStore).get_document_content 9 = none ∧
    (⟨[(3, ⟨"t", ['a']⟩)], 4⟩ : DStore).delete_document 9
      = (false, ⟨[(3, ⟨"t", ['a']⟩)], 4⟩) :=
  ⟨(mock_store_laws Nat).1 ⟨[], 0⟩ 7,
   by decide,
   (mock_store_laws Nat).2.1 ⟨[(0, 7)], 1⟩ 0 (by decide),
   by decide,
   (mock_store_laws Nat).2.2.1 ⟨[(0, 7)], 1⟩ 5 (by decide),
   (mock_store_laws Nat).2.2.2.1 ⟨[], 0⟩ "t" ['a'],
   by decide,
   (mock_store_laws Nat).2.2.2.2.1 ⟨[(3, ⟨"t", ['a']⟩)], 4⟩ 3 (by decide),
   by decide,
   (mock_store_laws Nat).2.2.2.2.2 ⟨[(3, ⟨"t", ['a']⟩)], 4⟩ 9 (by decide)⟩

/-! ## Helper lemmas about the chunk-insertion loops -/

theorem range_map_add_succ (n k : Nat) :
    (List.range (n + 1)).map (· + k) = k :: (List.range n).map (· + (k + 1)) := by
  simp only [List.range_succ_eq_map, List.map_cons, List.map_map, Nat.zero_add]
  congr 1
  apply List.map_congr_left
  intro j _
  simp only [Function.comp_apply]
  omega

theorem range_map_some_add (n m : Nat) :
    (List.range (n + 1)).map (fun j => some (m + j))
      = some m :: (List.range n).map (fun j => some (m + 1 + j)) := by
  simp only [List.range_succ_eq_map, List.map_cons, List.map_map, Nat.add_zero]
  congr 1
  apply List.map_congr_left
  intro j _
  simp only [Function.comp_apply]
  congr 1
  omega

theorem assignChunkIds_map (base : Nat) (rows : List ChunkRow) :
    ((assignChunkIds base rows).map (fun r => r.chunk_text)
      = rows.map (fun r => r.chunk_text)) ∧
    ((assignChunkIds base rows).map (fun r => r.chunk_order)
      = rows.map (fun r => r.chunk_order)) ∧
    ((assignChunkIds base rows).map (fun r => r.embedding_id)
      = rows.map (fun r => r.embedding_id)) ∧
    ((assignChunkIds base rows).map (fun r => r.document_id)
      = rows.map (fun r => r.document_id)) ∧
    (assignChunkIds base rows).length = rows.length := by
  induction rows generalizing base with
  | nil => simp [assignChunkIds]
  | cons r rest ih =>
    have h := ih (base + 1)
    simp only [assignChunkIds, List.map_cons, List.length_cons]
    exact ⟨by rw [h.1], by rw [h.2.1], by rw [h.2.2.1], by rw [h.2.2.2.1],
           by rw [h.2.2.2.2]⟩

theorem assignChunkIds_mem (base : Nat) (rows : List ChunkRow) :
    ∀ r ∈ assignChunkIds base rows, ∃ s ∈ rows,
      r.document_id = s.document_id ∧ r.chunk_text = s.chunk_text ∧
      r.chunk_order = s.chunk_order ∧ r.embedding_id = s.embedding_id := by
  induction rows generalizing base with
  | nil => simp [assignChunkIds]
  | cons s rest ih =>
    intro r hr
    rcases List.mem_cons.mp hr with rfl | hr2
    · exact ⟨s, by simp⟩
    · rcases ih (base + 1) r hr2 with ⟨t, ht, hprops⟩
      exact ⟨t, List.mem_cons_of_mem _ ht, hprops⟩

theorem addChunks_spec (gen : List Char → V) (docId : Nat) :
    ∀ (cs : List (List Char)) (i : Nat) (vs : VStore V),
      ((addChunks gen docId i cs vs).1.map (fun r => r.chunk_text) = cs) ∧
      ((addChunks gen docId i cs vs).1.map (fun r => r.chunk_order)
        = (List.range cs.length).map (· + i)) ∧
      ((addChunks gen docId i cs vs).1.map (fun r => r.embedding_id)
        = (List.range cs.length).map (fun j => some (vs.next + j))) ∧
      (∀ r ∈ (addChunks gen docId i cs vs).1, r.document_id = docId) ∧
      ((addChunks gen docId i cs vs).2.next = vs.next + cs.length) ∧
      (∀ q ∈ (addChunks gen docId i cs vs).2.store, q ∈ vs.store ∨ vs.next ≤ q.1) := by
  intro cs
  induction cs with
  | nil =>
    intro i vs
    refine ⟨by simp [addChunks], by simp [addChunks], by simp [addChunks],
            by simp [addChunks], by simp [addChunks], ?_⟩
    intro q hq
    simp only [addChunks] at hq
    exact Or.inl hq
  | cons c rest ih =>
    intro i vs
    have h := ih (i + 1) (vs.add_embedding (gen c)).2
    have hnext : (vs.add_embedding (gen c)).2.next = vs.next + 1 := rfl
    simp only [addChunks, List.map_cons, List.length_cons, List.mem_cons]
    refine ⟨by rw [h.1], ?_, ?_, ?_, ?_, ?_⟩
    · rw [h.2.1, range_map_add_succ]
    · rw [h.2.2.1, hnext, range_map_some_add]
      rfl
    · rintro r (rfl | hr2)
      · rfl
      · exact h.2.2.2.1 r hr2
    · rw [h.2.2.2.2.1, hnext]
      omega
    · intro q hq
      rcases h.2.2.2.2.2 q hq with hmem | hge
      · rcases List.mem_cons.mp hmem with rfl | hmem2
        · right; exact Nat.le_refl _
        · left; exact hmem2
      · right
        rw [hnext] at hge
        omega

theorem addChunksLoop_ok (gen : List Char → V) (failAt : Option Nat) (docId : Nat) :
    ∀ (cs : List (List Char)) (step i : Nat) (vs : VStore V) rows vs2,
      addChunksLoop gen failAt docId step i cs vs = (.ok rows, vs2) →
      addChunks gen docId i cs vs = (rows, vs2) := by
  intro cs
  induction cs with
  | nil =>
    intro step i vs rows vs2 h
    simp only [addChunksLoop, Prod.mk.injEq, Except.ok.injEq] at h
    simp [addChunks, ← h.1, ← h.2]
  | cons c rest ih =>
    intro step i vs rows vs2 h
    simp only [addChunksLoop] at h
    by_cases hf : failAt = some step
    · rw [if_pos hf] at h
      simp at h
    · rw [if_neg hf] at h
      rcases hrec : addChunksLoop gen failAt docId (step + 1) (i + 1) rest
          (vs.add_embedding (gen c)).2 with ⟨res, vsr⟩
      rw [hrec] at h
      cases res with
      | ok rrows =>
        have heq := ih (step + 1) (i + 1) (vs.add_embedding (gen c)).2 rrows vsr hrec
        simp only [Prod.mk.injEq, Except.ok.injEq] at h
        simp only [addChunks, heq, ← h.1, ← h.2]
      | error e =>
        simp at h

/-! ## Lookup lemmas -/

theorem getOwned_some (st : State V) (did uid : Nat) (d : DocRow)
    (h : getOwned st did uid = some d) :
    d ∈ st.docs ∧ d.id = did ∧ d.owner_id = uid := by
  refine ⟨List.mem_of_find?_eq_some h, ?_, ?_⟩
  · have := List.find?_some h
    simp at this
    exact this.1
  · have := List.find?_some h
    simp at this
    exact this.2

theorem getOwned_none (st : State V) (did uid : Nat)
    (h : ∀ d ∈ st.docs, d.id = did → d.owner_id ≠ uid) :
    getOwned st did uid = none := by
  rw [getOwned, List.find?_eq_none]
  intro d hd
  by_cases h1 : d.id = did
  · simp [h1, h d hd h1]
  · simp [h1]

/-! ## Order and sorting lemmas -/

theorem chain_lt_of_map_range (f : ChunkRow → Nat) :
    ∀ (l : List ChunkRow) (n k : Nat),
      l.map f = (List.range n).map (· + k) →
      List.Chain' (fun a b => f a < f b) l := by
  intro l
  induction l with
  | nil => intro n k _; exact List.chain'_nil
  | cons x xs ih =>
    intro n k h
    cases n with
    | zero => simp at h
    | succ m =>
      rw [range_map_add_succ, List.map_cons] at h
      simp only [List.cons.injEq] at h
      have hchain := ih m (k + 1) h.2
      cases xs with
      | nil => exact List.chain'_singleton x
      | cons y ys =>
        rw [List.chain'_cons]
        refine ⟨?_, hchain⟩
        have hxs := h.2
        cases m with
        | zero => simp at hxs
        | succ m2 =>
          rw [range_map_add_succ, List.map_cons] at hxs
          simp only [List.cons.injEq] at hxs
          rw [h.1, hxs.1]
          omega

theorem inj_of_map_range (f : ChunkRow → Nat) (l : List ChunkRow) (n k : Nat)
    (h : l.map f = (List.range n).map (· + k)) :
    ∀ a ∈ l, ∀ b ∈ l, f a = f b → a = b := by
  have hnd : (l.map f).Nodup := by
    rw [h]
    exact List.Nodup.map (fun a b hab => by omega) (List.nodup_range n)
  exact fun a ha b hb => List.inj_on_of_nodup_map hnd ha hb

theorem insertByOrder_of_le (c : ChunkRow) (l : List ChunkRow)
    (h : ∀ y, l.head? = some y → c.chunk_order ≤ y.chunk_order) :
    insertByOrder c l = c :: l := by
  cases l with
  | nil => rfl
  | cons y ys =>
    rw [insertByOrder, if_pos (h y rfl)]

theorem sortByOrder_of_chain (l : List ChunkRow)
    (h : List.Chain' (fun a b => a.chunk_order ≤ b.chunk_order) l) :
    sortByOrder l = l := by
  induction l with
  | nil => rfl
  | cons x xs ih =>
    rw [sortByOrder, ih h.tail]
    apply insertByOrder_of_le
    intro y hy
    cases xs with
    | nil => simp at hy
    | cons z zs =>
      have hz : z = y := by simpa using hy
      rw [List.chain'_cons] at h
      exact hz ▸ h.1

/-! ## Claims C1 and C2: the chunker -/

/-- C1 (amended): for non-empty text and `overlap < size`, the number of
chunks is `⌈len(text) / (size - overlap)⌉` (not
`⌈(len(text) - overlap) / (size - overlap)⌉` as the spec states). -/
theorem chunk_count_formula (text : List Char) (size overlap : Nat)
    (_hne : text ≠ []) (h : overlap < size) :
    (chunk_text text size overlap).length
      = (text.length + (size - overlap) - 1) / (size - overlap) := by
  rw [chunk_text_length text size overlap h]
  rfl

/-- C1 counterexample: with `size = 500`, `overlap = 50`, a text of length
480 yields 2 chunks (`text[0:500]` and `text[450:950]`), not the 1 chunk the
spec's formula `⌈(480 - 50) / 450⌉ = 1` predicts. -/
theorem chunk_count_480_counterexample :
    (chunk_text (List.replicate 480 'a') 500 50).length = 2 ∧
    (chunk_text (List.replicate 480 'a') 500 50).length ≠ 1 := by
  have h : (chunk_text (List.replicate 480 'a') 500 50).length
      = nChunks (List.replicate 480 'a').length (500 - 50) :=
    chunk_text_length _ 500 50 (by omega)
  have h2 : nChunks (List.replicate 480 'a').length (500 - 50) = 2 := by
    rw [List.length_replicate]
    decide
  rw [h, h2]
  exact ⟨rfl, by decide⟩

/-- Witness for `chunk_count_formula`: lengths 480 and 501 both give 2
chunks under the defaults. -/
theorem chunk_count_formula_witness :
    (List.replicate 480 'a' : List Char) ≠ [] ∧ 50 < 500 ∧
    (chunk_text (List.replicate 480 'a') 500 50).length = 2 ∧
    (chunk_text (List.replicate 501 'a') 500 50).length = 2 := by
  refine ⟨by decide, by omega, ?_, ?_⟩
  · rw [chunk_count_formula (List.replicate 480 'a') 500 50 (by decide) (by omega),
        List.length_replicate]
  · rw [chunk_count_formula (List.replicate 501 'a') 500 50 (by decide) (by omega),
        List.length_replicate]

/-- C2: empty text gives `[]`; otherwise the result is exactly the list of
slices `text[i*(size-overlap) : i*(size-overlap)+size]` for the indices `i`
(from 0) with `i*(size-overlap) < len(text)` — the loop stops as soon as
`start ≥ len(text)`.  The hypothesis `overlap < size` delimits the runs on
which the Python loop terminates at all (for `overlap ≥ size` the clamped
`start` never advances and the function never returns). -/
theorem chunk_text_slices (text : List Char) (size overlap : Nat)
    (h : overlap < size) :
    chunk_text [] size overlap = [] ∧
    chunk_text text size overlap
      = (List.range (nChunks text.length (size - overlap))).map
          (fun i => (text.drop (i * (size - overlap))).take size) ∧
    ∀ i : Nat, i < nChunks text.length (size - overlap)
      ↔ i * (size - overlap) < text.length := by
  refine ⟨rfl, chunk_text_eq text size overlap h, ?_⟩
  intro i
  exact lt_nChunks_iff i text.length (size - overlap) (by omega)

/-- Witness for `chunk_text_slices` on a concrete text. -/
theorem chunk_text_slices_witness :
    (1 : Nat) < 3 ∧
    chunk_text ['a', 'b', 'c', 'd'] 3 1 = [['a', 'b', 'c'], ['c', 'd']] := by
  refine ⟨by omega, ?_⟩
  rw [(chunk_text_slices ['a', 'b', 'c', 'd'] 3 1 (by omega)).2.1]
  decide

/-! ## Claims C4, C5, C6: frame, delete, ownership scoping -/

/-- C4: an update that changes only the title — content omitted, or provided
and exactly equal to the current content — leaves the chunk table, the
vector store and the external store untouched. -/
theorem update_title_only_frame (st : State V) (uid did : Nat) (d : DocRow)
    (newTitle : Option String) (newContent : Option (List Char))
    (gen : List Char → V)
    (hd : getOwned st did uid = some d)
    (hc : newContent = none ∨ newContent = some d.content) :
    (update_document st uid did newTitle newContent gen).1
      = .ok (match newTitle with | none => d | some t => { d with title := t }) ∧
    (update_document st uid did newTitle newContent gen).2.chunks = st.chunks ∧
    (update_document st uid did newTitle newContent gen).2.vs = st.vs ∧
    (update_document st uid did newTitle newContent gen).2.ds = st.ds ∧
    (update_document st uid did newTitle newContent gen).2.nextChunkId
      = st.nextChunkId := by
  rcases hc with rfl | rfl
  · cases newTitle <;> simp [update_document, hd]
  · cases newTitle <;> simp [update_document, hd]

/-- Witness for `update_title_only_frame` at a concrete state. -/
theorem update_title_only_frame_witness :
    getOwned (⟨[⟨0, "t", ['a'], 1, 0, true⟩], [⟨0, 0, ['a'], 0, some 0⟩], 1, 1,
        ⟨[(0, 9)], 1⟩, ⟨[(0, ⟨"t", ['a']⟩)], 1⟩⟩ : State Nat) 0 1
      = some ⟨0, "t", ['a'], 1, 0, true⟩ ∧
    (update_document (⟨[⟨0, "t", ['a'], 1, 0, true⟩], [⟨0, 0, ['a'], 0, some 0⟩], 1, 1,
        ⟨[(0, 9)], 1⟩, ⟨[(0, ⟨"t", ['a']⟩)], 1⟩⟩ : State Nat) 1 0 (some "u") none
        (fun _ => 0)).2.chunks
      = [⟨0, 0, ['a'], 0, some 0⟩] :=
  ⟨by decide,
   (update_title_only_frame (⟨[⟨0, "t", ['a'], 1, 0, true⟩], [⟨0, 0, ['a'], 0, some 0⟩],
       1, 1, ⟨[(0, 9)], 1⟩, ⟨[(0, ⟨"t", ['a']⟩)], 1⟩⟩ : State Nat) 1 0
       ⟨0, "t", ['a'], 1, 0, true⟩ (some "u") none (fun _ => 0) (by decide)
       (Or.inl rfl)).2.1⟩

/-- C5: a successful delete removes the document row, cascades away all of
its chunk rows, deletes every associated embedding (fetch returns
not-found) and the external-store entry (fetch returns not-found); rows of
other documents are untouched. -/
theorem delete_document_spec (st : State V) (uid did : Nat) (d : DocRow)
    (hd : getOwned st did uid = some d) :
    (delete_document st uid did).1 = .ok () ∧
    (delete_document st uid did).2.docs = st.docs.filter (fun x => x.id != did) ∧
    d ∉ (delete_document st uid did).2.docs ∧
    (delete_document st uid did).2.chunks
      = st.chunks.filter (fun c => c.document_id != did) ∧
    (∀ ch ∈ st.chunks, ch.document_id = did →
      ch ∉ (delete_document st uid did).2.chunks) ∧
    (∀ ch ∈ st.chunks, ch.document_id = did → ∀ e : Nat,
      ch.embedding_id = some e →
      (delete_document st uid did).2.vs.get_embedding e = none) ∧
    (delete_document st uid did).2.ds.get_document_content d.mock_system_id
      = none := by
  have hdid : d.id = did := (getOwned_some st did uid d hd).2.1
  refine ⟨by simp [delete_document, hd], by simp [delete_document, hd], ?_,
          by simp [delete_document, hd], ?_, ?_, ?_⟩
  · simp only [delete_document, hd]
    intro hmem
    have := (List.mem_filter.mp hmem).2
    simp [hdid] at this
  · simp only [delete_document, hd]
    intro ch _ hchdid hmem
    have := (List.mem_filter.mp hmem).2
    simp [hchdid] at this
  · simp only [delete_document, hd]
    intro ch hch hchdid e he
    unfold VStore.get_embedding
    have hnone : ((deleteEmbeddings st.vs (chunksOf st did)).store.find?
        (fun p => p.1 == e)) = none := by
      rw [List.find?_eq_none]
      intro q hq
      have hmem := ((deleteEmbeddings_spec (chunksOf st did) st.vs).2 q).mp hq
      have hne := hmem.2 ch (List.mem_filter.mpr ⟨hch, by simp [hchdid]⟩)
      rw [he] at hne
      simp only [beq_iff_eq]
      intro hqe
      exact hne (by rw [hqe])
    rw [hnone]
    rfl
  · simp only [delete_document, hd]
    unfold DStore.get_document_content
    rw [(DStore.delete_document_store st.ds d.mock_system_id).1]
    have hnone : ((st.ds.store.filter (fun p => p.1 != d.mock_system_id)).find?
        (fun p => p.1 == d.mock_system_id)) = none := by
      rw [List.find?_eq_none]
      intro q hq
      have := (List.mem_filter.mp hq).2
      simpa using this
    rw [hnone]
    rfl

/-- Witness for `delete_document_spec` at a concrete state. -/
theorem delete_document_spec_witness :
    getOwned (⟨[⟨0, "t", ['a'], 1, 5, true⟩], [⟨0, 0, ['a'], 0, some 0⟩], 1, 1,
        ⟨[(0, 9)], 1⟩, ⟨[(5, ⟨"t", ['a']⟩)], 6⟩⟩ : State Nat) 0 1
      = some ⟨0, "t", ['a'], 1, 5, true⟩ ∧
    (delete_document (⟨[⟨0, "t", ['a'], 1, 5, true⟩], [⟨0, 0, ['a'], 0, some 0⟩], 1, 1,
        ⟨[(0, 9)], 1⟩, ⟨[(5, ⟨"t", ['a']⟩)], 6⟩⟩ : State Nat) 1 0).2.ds.get_document_content 5
      = none :=
  ⟨by decide,
   (delete_document_spec (⟨[⟨0, "t", ['a'], 1, 5, true⟩], [⟨0, 0, ['a'], 0, some 0⟩],
       1, 1, ⟨[(0, 9)], 1⟩, ⟨[(5, ⟨"t", ['a']⟩)], 6⟩⟩ : State Nat) 1 0
       ⟨0, "t", ['a'], 1, 5, true⟩ (by decide)).2.2.2.2.2.2⟩

/-- C6: when no document with the requested id is owned by the requester —
because the document is absent or because it belongs to another user — the
get, update, delete and get-chunks handlers all return the same
`DocumentNotFoundException` (404, "Document not found"), never succeed,
never return 403, and leave the state unchanged; two such states are
indistinguishable through these endpoints. -/
theorem ownership_scoped_not_found (st : State V) (uid did : Nat)
    (newTitle : Option String) (newContent : Option (List Char))
    (gen : List Char → V)
    (hno : ∀ d ∈ st.docs, d.id = did → d.owner_id ≠ uid) :
    get_document st uid did = .error .documentNotFound ∧
    update_document st uid did newTitle newContent gen
      = (.error .documentNotFound, st) ∧
    delete_document st uid did = (.error .documentNotFound, st) ∧
    get_document_chunks st uid did = .error .documentNotFound ∧
    errStatus .documentNotFound = 404 ∧
    errDetail .documentNotFound = "Document not found" ∧
    errStatus .documentNotFound ≠ 403 ∧
    (∀ st2 : State V, (∀ d ∈ st2.docs, d.id = did → d.owner_id ≠ uid) →
      get_document st uid did = get_document st2 uid did ∧
      (update_document st uid did newTitle newContent gen).1
        = (update_document st2 uid did newTitle newContent gen).1 ∧
      (delete_document st uid did).1 = (delete_document st2 uid did).1 ∧
      get_document_chunks st uid did = get_document_chunks st2 uid did) := by
  have h := getOwned_none st did uid hno
  refine ⟨by simp [get_document, h], by simp [update_document, h],
          by simp [delete_document, h], by simp [get_document_chunks, h],
          rfl, rfl, by decide, ?_⟩
  intro st2 hno2
  have h2 := getOwned_none st2 did uid hno2
  exact ⟨by simp [get_document, h, h2], by simp [update_document, h, h2],
         by simp [delete_document, h, h2], by simp [get_document_chunks, h, h2]⟩

/-- Witness for `ownership_scoped_not_found`: a state holding a document
owned by user 1, queried by user 2, behaves like an absent document. -/
theorem ownership_scoped_not_found_witness :
    get_document (⟨[⟨0, "t", ['a'], 1, 0, true⟩], [], 1, 0, ⟨[], 0⟩, ⟨[], 1⟩⟩ :
        State Nat) 2 0 = .error .documentNotFound ∧
    get_document (⟨[], [], 0, 0, ⟨[], 0⟩, ⟨[], 0⟩⟩ : State Nat) 2 0
      = .error .documentNotFound :=
  ⟨(ownership_scoped_not_found (⟨[⟨0, "t", ['a'], 1, 0, true⟩], [], 1, 0,
      ⟨[], 0⟩, ⟨[], 1⟩⟩ : State Nat) 2 0 none none (fun _ => 0)
      (by decide)).1,
   (ownership_scoped_not_found (⟨[], [], 0, 0, ⟨[], 0⟩, ⟨[], 0⟩⟩ : State Nat) 2 0
      none none (fun _ => 0) (by simp)).1⟩

/-! ## Claim C3: content update reprocesses wholesale -/

/-- C3: updating a document's content to a different string (exact
inequality) succeeds, deletes all prior chunk rows of the document and all
their embedding ids (a subsequent fetch of any old embedding id is
not-found), and inserts a wholesale-fresh chunk set equal to the Chunker's
output on the new content, with fresh embedding ids colliding neither with
previously live store ids nor with ids referenced by prior chunk rows.  The
two freshness hypotheses state that embedding ids issued so far are below
the store's counter — the uuid4 non-collision guarantee. -/
theorem update_content_reprocesses (st : State V) (uid did : Nat) (d : DocRow)
    (newTitle : Option String) (c : List Char) (gen : List Char → V)
    (hd : getOwned st did uid = some d)
    (hne : d.content ≠ c)
    (hvs : ∀ p ∈ st.vs.store, p.1 < st.vs.next)
    (hch : ∀ ch ∈ st.chunks, ∀ e : Nat, ch.embedding_id = some e → e < st.vs.next) :
    (∃ d2 : DocRow, (update_document st uid did newTitle (some c) gen).1 = .ok d2) ∧
    (∀ ch ∈ st.chunks, ch.document_id = did →
      ch ∉ (update_document st uid did newTitle (some c) gen).2.chunks) ∧
    (∀ ch ∈ st.chunks, ch.document_id = did → ∀ e : Nat,
      ch.embedding_id = some e →
      (update_document st uid did newTitle (some c) gen).2.vs.get_embedding e
        = none) ∧
    (∃ newRows : List ChunkRow,
      (update_document st uid did newTitle (some c) gen).2.chunks
        = st.chunks.filter (fun ch => ch.document_id != did) ++ newRows ∧
      newRows.map (fun x => x.chunk_text) = chunk_text c 500 50 ∧
      newRows.map (fun x => x.chunk_order)
        = List.range (chunk_text c 500 50).length ∧
      (∀ x ∈ newRows, x.document_id = did) ∧
      (∀ x ∈ newRows, ∀ e : Nat, x.embedding_id = some e →
        st.vs.next ≤ e ∧ (∀ q ∈ st.vs.store, q.1 ≠ e) ∧
        (∀ ch ∈ st.chunks, ∀ e2 : Nat, ch.embedding_id = some e2 → e2 ≠ e))) := by
  have hvs1next : (deleteEmbeddings st.vs (chunksOf st did)).next = st.vs.next :=
    (deleteEmbeddings_spec _ _).1
  have hadd := addChunks_spec gen did (chunk_text c 500 50) 0
    (deleteEmbeddings st.vs (chunksOf st did))
  have hassign := assignChunkIds_map st.nextChunkId
    (addChunks gen did 0 (chunk_text c 500 50)
      (deleteEmbeddings st.vs (chunksOf st did))).1
  simp only [update_document, hd]
  rw [if_pos hne]
  refine ⟨⟨_, rfl⟩, ?_, ?_, ?_⟩
  · intro ch hch2 hdid2 hmem
    rw [List.mem_append] at hmem
    rcases hmem with hm | hm
    · have := (List.mem_filter.mp hm).2
      simp [hdid2] at this
    · rcases assignChunkIds_mem _ _ ch hm with ⟨s, hs, hsprops⟩
      have hmap : s.embedding_id ∈ (addChunks gen did 0 (chunk_text c 500 50)
          (deleteEmbeddings st.vs (chunksOf st did))).1.map
            (fun x => x.embedding_id) := List.mem_map_of_mem _ hs
      rw [hadd.2.2.1] at hmap
      rcases List.mem_map.mp hmap with ⟨j, _, hje⟩
      cases he : ch.embedding_id with
      | none =>
        rw [hsprops.2.2.2, ← hje] at he
        simp at he
      | some e =>
        have hlt := hch ch hch2 e he
        rw [hsprops.2.2.2, ← hje] at he
        rw [hvs1next] at hje he
        have : st.vs.next + j = e := by
          have := Option.some_inj.mp he
          omega
        omega
  · intro ch hch2 hdid2 e he
    unfold VStore.get_embedding
    have hnone : ((addChunks gen did 0 (chunk_text c 500 50)
        (deleteEmbeddings st.vs (chunksOf st did))).2.store.find?
          (fun p => p.1 == e)) = none := by
      rw [List.find?_eq_none]
      intro q hq
      rcases hadd.2.2.2.2.2 q hq with hmem | hge
      · have hmem2 := ((deleteEmbeddings_spec (chunksOf st did) st.vs).2 q).mp hmem
        have hne2 := hmem2.2 ch (List.mem_filter.mpr ⟨hch2, by simp [hdid2]⟩)
        rw [he] at hne2
        simp only [beq_iff_eq]
        intro hqe
        exact hne2 (by rw [hqe])
      · have hlt := hch ch hch2 e he
        rw [hvs1next] at hge
        simp only [beq_iff_eq]
        omega
    rw [hnone]
    rfl
  · refine ⟨assignChunkIds st.nextChunkId (addChunks gen did 0 (chunk_text c 500 50)
      (deleteEmbeddings st.vs (chunksOf st did))).1, rfl, ?_, ?_, ?_, ?_⟩
    · rw [hassign.1, hadd.1]
    · rw [hassign.2.1, hadd.2.1]
      simp
    · intro x hx
      rcases assignChunkIds_mem _ _ x hx with ⟨s, hs, hsprops⟩
      rw [hsprops.1]
      exact hadd.2.2.2.1 s hs
    · intro x hx e hxe
      rcases assignChunkIds_mem _ _ x hx with ⟨s, hs, hsprops⟩
      have hmap : s.embedding_id ∈ (addChunks gen did 0 (chunk_text c 500 50)
          (deleteEmbeddings st.vs (chunksOf st did))).1.map
            (fun x => x.embedding_id) := List.mem_map_of_mem _ hs
      rw [hadd.2.2.1] at hmap
      rcases List.mem_map.mp hmap with ⟨j, _, hje⟩
      rw [hsprops.2.2.2, ← hje] at hxe
      rw [hvs1next] at hxe
      have heq : st.vs.next + j = e := Option.some_inj.mp hxe
      refine ⟨by omega, ?_, ?_⟩
      · intro q hq
        have := hvs q hq
        omega
      · intro ch hch2 e2 he2
        have := hch ch hch2 e2 he2
        omega

/-- Witness for `update_content_reprocesses` at a concrete state: the old
embedding id 0 is gone from the vector store after the content update. -/
theorem update_content_reprocesses_witness :
    getOwned (⟨[⟨0, "t", ['a'], 1, 0, true⟩], [⟨0, 0, ['a'], 0, some 0⟩], 1, 1,
        ⟨[(0, 7)], 1⟩, ⟨[(0, ⟨"t", ['a']⟩)], 1⟩⟩ : State Nat) 0 1
      = some ⟨0, "t", ['a'], 1, 0, true⟩ ∧
    (update_document (⟨[⟨0, "t", ['a'], 1, 0, true⟩], [⟨0, 0, ['a'], 0, some 0⟩], 1, 1,
        ⟨[(0, 7)], 1⟩, ⟨[(0, ⟨"t", ['a']⟩)], 1⟩⟩ : State Nat) 1 0 none (some ['b'])
        (fun _ => 42)).2.vs.get_embedding 0 = none :=
  ⟨by decide,
   (update_content_reprocesses (⟨[⟨0, "t", ['a'], 1, 0, true⟩],
       [⟨0, 0, ['a'], 0, some 0⟩], 1, 1, ⟨[(0, 7)], 1⟩,
       ⟨[(0, ⟨"t", ['a']⟩)], 1⟩⟩ : State Nat) 1 0 ⟨0, "t", ['a'], 1, 0, true⟩
       none ['b'] (fun _ => 42) (by decide) (by decide) (by decide)
       (by decide)).2.2.1 ⟨0, 0, ['a'], 0, some 0⟩ (by decide) rfl 0 rfl⟩

/-! ## Claim C7: create rolls back on any failure -/

/-- C7: if any step of the create sequence raises (failure injected at any
step index), the database transaction is rolled back — the documents table,
the chunks table and both id sequences are exactly as before — and a
processing-failure error (500) is raised; the external-store upload of step
0 is not compensated: unless the failure hit the upload itself, the uploaded
content is still retrievable under the id it was assigned. -/
theorem create_rollback (st : State V) (uid : Nat) (title : String)
    (content : List Char) (gen : List Char → V) (failAt : Option Nat)
    (e : Err) (st2 : State V)
    (h : create_document st uid title content gen failAt = (.error e, st2)) :
    e = .documentProcessing ∧
    st2.docs = st.docs ∧
    st2.chunks = st.chunks ∧
    st2.nextDocId = st.nextDocId ∧
    st2.nextChunkId = st.nextChunkId ∧
    errStatus .documentProcessing = 500 ∧
    (failAt ≠ some 0 →
      st2.ds.get_document_content st.ds.next = some content) := by
  have hup : ((st.ds.upload_document title content).2).get_document_content
      st.ds.next = some content := by
    simp [DStore.upload_document, DStore.get_document_content, List.find?]
  simp only [create_document] at h
  by_cases h0 : failAt = some 0
  · rw [if_pos h0] at h
    simp only [Prod.mk.injEq, Except.error.injEq] at h
    obtain ⟨he, hst⟩ := h
    subst hst
    exact ⟨he.symm, rfl, rfl, rfl, rfl, rfl, fun hne0 => absurd h0 hne0⟩
  · rw [if_neg h0] at h
    by_cases h1 : failAt = some 1
    · rw [if_pos h1] at h
      simp only [Prod.mk.injEq, Except.error.injEq] at h
      obtain ⟨he, hst⟩ := h
      subst hst
      exact ⟨he.symm, rfl, rfl, rfl, rfl, rfl, fun _ => hup⟩
    · rw [if_neg h1] at h
      by_cases h2 : failAt = some 2
      · rw [if_pos h2] at h
        simp only [Prod.mk.injEq, Except.error.injEq] at h
        obtain ⟨he, hst⟩ := h
        subst hst
        exact ⟨he.symm, rfl, rfl, rfl, rfl, rfl, fun _ => hup⟩
      · rw [if_neg h2] at h
        rcases hloop : addChunksLoop gen failAt st.nextDocId 3 0
            (chunk_text content 500 50) st.vs with ⟨res, vsr⟩
        rw [hloop] at h
        cases res with
        | error u =>
          simp only [Prod.mk.injEq, Except.error.injEq] at h
          obtain ⟨he, hst⟩ := h
          subst hst
          exact ⟨he.symm, rfl, rfl, rfl, rfl, rfl, fun _ => hup⟩
        | ok rows =>
          dsimp only at h
          by_cases h3 : failAt = some (3 + (chunk_text content 500 50).length)
          · rw [if_pos h3] at h
            simp only [Prod.mk.injEq, Except.error.injEq] at h
            obtain ⟨he, hst⟩ := h
            subst hst
            exact ⟨he.symm, rfl, rfl, rfl, rfl, rfl, fun _ => hup⟩
          · rw [if_neg h3] at h
            by_cases h4 : failAt = some (4 + (chunk_text content 500 50).length)
            · rw [if_pos h4] at h
              simp only [Prod.mk.injEq, Except.error.injEq] at h
              obtain ⟨he, hst⟩ := h
              subst hst
              exact ⟨he.symm, rfl, rfl, rfl, rfl, rfl, fun _ => hup⟩
            · rw [if_neg h4] at h
              simp at h

/-- Witness for `create_rollback`: failure injected right after the upload
leaves the database untouched but the uploaded entry behind. -/
theorem create_rollback_witness :
    create_document (⟨[], [], 0, 0, ⟨[], 0⟩, ⟨[], 0⟩⟩ : State Nat) 1 "t" ['a']
        (fun _ => 0) (some 1)
      = (.error .documentProcessing,
         ⟨[], [], 0, 0, ⟨[], 0⟩, ⟨[(0, ⟨"t", ['a']⟩)], 1⟩⟩) ∧
    (⟨[], [], 0, 0, ⟨[], 0⟩,
        ⟨[(0, ⟨"t", ['a']⟩)], 1⟩⟩ : State Nat).ds.get_document_content 0
      = some ['a'] :=
  ⟨rfl,
   (create_rollback (⟨[], [], 0, 0, ⟨[], 0⟩, ⟨[], 0⟩⟩ : State Nat) 1 "t" ['a']
      (fun _ => 0) (some 1) .documentProcessing
      (⟨[], [], 0, 0, ⟨[], 0⟩, ⟨[(0, ⟨"t", ['a']⟩)], 1⟩⟩ : State Nat)
      rfl).2.2.2.2.2.2 (by decide)⟩

/-! ## Claim C8: chunk-order invariant over all reachable states -/

/-- The states reachable from the empty database through the three write
handlers (with arbitrary arguments, including injected create failures). -/
inductive Reachable : State V → Prop where
  | init : Reachable ⟨[], [], 0, 0, ⟨[], 0⟩, ⟨[], 0⟩⟩
  | create (st : State V) (h : Reachable st) (uid : Nat) (title : String)
      (content : List Char) (gen : List Char → V) (failAt : Option Nat) :
      Reachable (create_document st uid title content gen failAt).2
  | update (st : State V) (h : Reachable st) (uid did : Nat)
      (newTitle : Option String) (newContent : Option (List Char))
      (gen : List Char → V) :
      Reachable (update_document st uid did newTitle newContent gen).2
  | del (st : State V) (h : Reachable st) (uid did : Nat) :
      Reachable (delete_document st uid did).2

/-- Data-model invariant: ids come from the sequences, document ids are
unique, and every document's chunk rows sit in the table in Chunker order
with dense orders `0..N-1`. -/
def Inv (st : State V) : Prop :=
  (∀ d ∈ st.docs, d.id < st.nextDocId) ∧
  (∀ d1 ∈ st.docs, ∀ d2 ∈ st.docs, d1.id = d2.id → d1 = d2) ∧
  (∀ c ∈ st.chunks, c.document_id < st.nextDocId) ∧
  (∀ d ∈ st.docs,
    (chunksOf st d.id).map (fun x => x.chunk_order)
      = List.range (chunksOf st d.id).length ∧
    (chunksOf st d.id).map (fun x => x.chunk_text) = chunk_text d.content 500 50)

theorem filter_filter_of_ne (l : List ChunkRow) (did y : Nat) (h : y ≠ did) :
    (l.filter (fun c => c.document_id != did)).filter (fun c => c.document_id == y)
      = l.filter (fun c => c.document_id == y) := by
  rw [List.filter_filter]
  apply List.filter_congr
  intro a _
  by_cases hy : a.document_id = y
  · simp [hy, h]
  · simp [hy]

theorem filter_bne_then_beq_nil (l : List ChunkRow) (did : Nat) :
    (l.filter (fun c => c.document_id != did)).filter (fun c => c.document_id == did)
      = [] := by
  rw [List.filter_eq_nil_iff]
  intro a ha
  have := (List.mem_filter.mp ha).2
  simpa using this

theorem newRows_filter_ne (rows : List ChunkRow) (docId y : Nat)
    (hall : ∀ r ∈ rows, r.document_id = docId) (h : y ≠ docId) :
    rows.filter (fun c => c.document_id == y) = [] := by
  rw [List.filter_eq_nil_iff]
  intro r hr
  simp only [hall r hr, beq_iff_eq]
  exact fun hh => h hh.symm

theorem newRows_filter_self (rows : List ChunkRow) (docId : Nat)
    (hall : ∀ r ∈ rows, r.document_id = docId) :
    rows.filter (fun c => c.document_id == docId) = rows := by
  rw [List.filter_eq_self]
  intro r hr
  simp [hall r hr]

theorem Inv_init : Inv (⟨[], [], 0, 0, ⟨[], 0⟩, ⟨[], 0⟩⟩ : State V) := by
  refine ⟨by simp, by simp, by simp, by simp⟩

theorem Inv_create (st : State V) (uid : Nat) (title : String)
    (content : List Char) (gen : List Char → V) (failAt : Option Nat)
    (hInv : Inv st) :
    Inv (create_document st uid title content gen failAt).2 := by
  simp only [create_document]
  by_cases h0 : failAt = some 0
  · rw [if_pos h0]
    exact hInv
  · rw [if_neg h0]
    by_cases h1 : failAt = some 1
    · rw [if_pos h1]
      exact hInv
    · rw [if_neg h1]
      by_cases h2 : failAt = some 2
      · rw [if_pos h2]
        exact hInv
      · rw [if_neg h2]
        rcases hloop : addChunksLoop gen failAt st.nextDocId 3 0
            (chunk_text content 500 50) st.vs with ⟨res, vs2⟩
        cases res with
        | error u => exact hInv
        | ok rows =>
          dsimp only
          by_cases h3 : failAt = some (3 + (chunk_text content 500 50).length)
          · rw [if_pos h3]
            exact hInv
          · rw [if_neg h3]
            by_cases h4 : failAt = some (4 + (chunk_text content 500 50).length)
            · rw [if_pos h4]
              exact hInv
            · rw [if_neg h4]
              have hspec := addChunks_spec gen st.nextDocId
                (chunk_text content 500 50) 0 st.vs
              rw [addChunksLoop_ok gen failAt st.nextDocId
                (chunk_text content 500 50) 3 0 st.vs rows vs2 hloop] at hspec
              have hrt : rows.map (fun x => x.chunk_text)
                  = chunk_text content 500 50 := hspec.1
              have hro : rows.map (fun x => x.chunk_order)
                  = (List.range (chunk_text content 500 50).length).map (· + 0) :=
                hspec.2.1
              have hdocid : ∀ r ∈ rows, r.document_id = st.nextDocId :=
                hspec.2.2.2.1
              have hlen : rows.length = (chunk_text content 500 50).length := by
                have := congrArg List.length hrt
                simpa using this
              have hamem : ∀ r ∈ assignChunkIds st.nextChunkId rows,
                  r.document_id = st.nextDocId := by
                intro r hr
                rcases assignChunkIds_mem _ _ r hr with ⟨s, hs, hp⟩
                rw [hp.1]
                exact hdocid s hs
              have hass := assignChunkIds_map st.nextChunkId rows
              refine ⟨?_, ?_, ?_, ?_⟩
              · intro d hd
                rcases List.mem_append.mp hd with hold | hnew
                · have := hInv.1 d hold
                  show d.id < st.nextDocId + 1
                  omega
                · have hde := List.mem_singleton.mp hnew
                  have hid : d.id = st.nextDocId := by rw [hde]
                  show d.id < st.nextDocId + 1
                  omega
              · intro d1 hd1 d2 hd2 he
                rcases List.mem_append.mp hd1 with hold1 | hnew1 <;>
                  rcases List.mem_append.mp hd2 with hold2 | hnew2
                · exact hInv.2.1 d1 hold1 d2 hold2 he
                · have hde := List.mem_singleton.mp hnew2
                  have hid : d2.id = st.nextDocId := by rw [hde]
                  have h1lt := hInv.1 d1 hold1
                  omega
                · have hde := List.mem_singleton.mp hnew1
                  have hid : d1.id = st.nextDocId := by rw [hde]
                  have h2lt := hInv.1 d2 hold2
                  omega
                · have hde1 := List.mem_singleton.mp hnew1
                  have hde2 := List.mem_singleton.mp hnew2
                  rw [hde1, hde2]
              · intro ch hc
                rcases List.mem_append.mp hc with hold | hnew
                · have := hInv.2.2.1 ch hold
                  show ch.document_id < st.nextDocId + 1
                  omega
                · have := hamem ch hnew
                  show ch.document_id < st.nextDocId + 1
                  omega
              · intro d hd
                rcases List.mem_append.mp hd with hold | hnew
                · have hne : d.id ≠ st.nextDocId := Nat.ne_of_lt (hInv.1 d hold)
                  simp only [chunksOf, List.filter_append]
                  rw [newRows_filter_ne _ st.nextDocId d.id hamem hne,
                      List.append_nil]
                  simpa only [chunksOf] using hInv.2.2.2 d hold
                · have hde := List.mem_singleton.mp hnew
                  have hid : d.id = st.nextDocId := by rw [hde]
                  have hcont : d.content = content := by rw [hde]
                  have hold_nil : st.chunks.filter
                      (fun c => c.document_id == st.nextDocId) = [] := by
                    rw [List.filter_eq_nil_iff]
                    intro c hc
                    simp only [beq_iff_eq]
                    exact Nat.ne_of_lt (hInv.2.2.1 c hc)
                  rw [hid, hcont]
                  simp only [chunksOf, List.filter_append]
                  rw [hold_nil, newRows_filter_self _ st.nextDocId hamem,
                      List.nil_append]
                  constructor
                  · rw [hass.2.1, hro, hass.2.2.2.2, hlen]
                    simp
                  · rw [hass.1, hrt]

theorem Inv_docs_replace (st : State V) (did : Nat) (d dNew : DocRow)
    (hInv : Inv st) (hdmem : d ∈ st.docs) (hdid : d.id = did)
    (hnid : dNew.id = d.id) (hncont : dNew.content = d.content) :
    Inv { st with docs := st.docs.map (fun x => if x.id == did then dNew else x) } := by
  refine ⟨?_, ?_, ?_, ?_⟩
  · intro x hx
    rcases List.mem_map.mp hx with ⟨y, hy, hxy⟩
    show x.id < st.nextDocId
    by_cases hyid : y.id = did
    · rw [← hxy, if_pos (by simp [hyid])]
      rw [hnid]
      exact hInv.1 d hdmem
    · rw [← hxy, if_neg (by simp [hyid])]
      exact hInv.1 y hy
  · intro x1 h1 x2 h2 he
    rcases List.mem_map.mp h1 with ⟨y1, hy1, hxy1⟩
    rcases List.mem_map.mp h2 with ⟨y2, hy2, hxy2⟩
    by_cases hy1id : y1.id = did <;> by_cases hy2id : y2.id = did
    · rw [← hxy1, ← hxy2, if_pos (by simp [hy1id]), if_pos (by simp [hy2id])]
    · exfalso
      rw [← hxy1, if_pos (by simp [hy1id])] at he
      rw [← hxy2, if_neg (by simp [hy2id])] at he
      rw [hnid, hdid] at he
      exact hy2id he.symm
    · exfalso
      rw [← hxy1, if_neg (by simp [hy1id])] at he
      rw [← hxy2, if_pos (by simp [hy2id])] at he
      rw [hnid, hdid] at he
      exact hy1id he
    · rw [← hxy1, if_neg (by simp [hy1id]), ← hxy2, if_neg (by simp [hy2id])]
      apply hInv.2.1 y1 hy1 y2 hy2
      rw [← hxy1, if_neg (by simp [hy1id])] at he
      rw [← hxy2, if_neg (by simp [hy2id])] at he
      exact he
  · intro c hc
    exact hInv.2.2.1 c hc
  · intro x hx
    rcases List.mem_map.mp hx with ⟨y, hy, hxy⟩
    by_cases hyid : y.id = did
    · rw [← hxy, if_pos (by simp [hyid])]
      rw [hnid, hncont]
      have hh := hInv.2.2.2 d hdmem
      simp only [chunksOf] at hh ⊢
      exact hh
    · rw [← hxy, if_neg (by simp [hyid])]
      have hh := hInv.2.2.2 y hy
      simp only [chunksOf] at hh ⊢
      exact hh

theorem Inv_update_reprocess (st : State V) (did : Nat) (d dNew : DocRow)
    (c : List Char) (gen : List Char → V) (hInv : Inv st) (hdmem : d ∈ st.docs)
    (hdid : d.id = did) (hnid : dNew.id = d.id) (hncont : dNew.content = c) :
    Inv { st with
            docs := st.docs.map (fun x => if x.id == did then dNew else x),
            chunks := (st.chunks.filter (fun ch => ch.document_id != did))
              ++ assignChunkIds st.nextChunkId
                  (addChunks gen did 0 (chunk_text c 500 50)
                    (deleteEmbeddings st.vs (chunksOf st did))).1,
            nextChunkId := st.nextChunkId
              + (addChunks gen did 0 (chunk_text c 500 50)
                  (deleteEmbeddings st.vs (chunksOf st did))).1.length,
            vs := (addChunks gen did 0 (chunk_text c 500 50)
                    (deleteEmbeddings st.vs (chunksOf st did))).2 } := by
  have hspec := addChunks_spec gen did (chunk_text c 500 50) 0
    (deleteEmbeddings st.vs (chunksOf st did))
  have hrt := hspec.1
  have hro := hspec.2.1
  have hdocid := hspec.2.2.2.1
  have hlen : (addChunks gen did 0 (chunk_text c 500 50)
      (deleteEmbeddings st.vs (chunksOf st did))).1.length
      = (chunk_text c 500 50).length := by
    have := congrArg List.length hrt
    simpa using this
  have hamem : ∀ r ∈ assignChunkIds st.nextChunkId
      (addChunks gen did 0 (chunk_text c 500 50)
        (deleteEmbeddings st.vs (chunksOf st did))).1, r.document_id = did := by
    intro r hr
    rcases assignChunkIds_mem _ _ r hr with ⟨s, hs, hp⟩
    rw [hp.1]
    exact hdocid s hs
  have hass := assignChunkIds_map st.nextChunkId
    (addChunks gen did 0 (chunk_text c 500 50)
      (deleteEmbeddings st.vs (chunksOf st did))).1
  simp only [chunksOf] at hrt hro hdocid hlen hamem hass
  refine ⟨?_, ?_, ?_, ?_⟩
  · intro x hx
    rcases List.mem_map.mp hx with ⟨y, hy, hxy⟩
    show x.id < st.nextDocId
    by_cases hyid : y.id = did
    · rw [← hxy, if_pos (by simp [hyid])]
      rw [hnid]
      exact hInv.1 d hdmem
    · rw [← hxy, if_neg (by simp [hyid])]
      exact hInv.1 y hy
  · intro x1 h1 x2 h2 he
    rcases List.mem_map.mp h1 with ⟨y1, hy1, hxy1⟩
    rcases List.mem_map.mp h2 with ⟨y2, hy2, hxy2⟩
    by_cases hy1id : y1.id = did <;> by_cases hy2id : y2.id = did
    · rw [← hxy1, ← hxy2, if_pos (by simp [hy1id]), if_pos (by simp [hy2id])]
    · exfalso
      rw [← hxy1, if_pos (by simp [hy1id])] at he
      rw [← hxy2, if_neg (by simp [hy2id])] at he
      rw [hnid, hdid] at he
      exact hy2id he.symm
    · exfalso
      rw [← hxy1, if_neg (by simp [hy1id])] at he
      rw [← hxy2, if_pos (by simp [hy2id])] at he
      rw [hnid, hdid] at he
      exact hy1id he
    · rw [← hxy1, if_neg (by simp [hy1id]), ← hxy2, if_neg (by simp [hy2id])]
      apply hInv.2.1 y1 hy1 y2 hy2
      rw [← hxy1, if_neg (by simp [hy1id])] at he
      rw [← hxy2, if_neg (by simp [hy2id])] at he
      exact he
  · intro ch hc
    rcases List.mem_append.mp hc with hold | hnew
    · show ch.document_id < st.nextDocId
      exact hInv.2.2.1 ch (List.mem_of_mem_filter hold)
    · show ch.document_id < st.nextDocId
      rw [hamem ch hnew, ← hdid]
      exact hInv.1 d hdmem
  · intro x hx
    rcases List.mem_map.mp hx with ⟨y, hy, hxy⟩
    by_cases hyid : y.id = did
    · rw [← hxy, if_pos (by simp [hyid])]
      rw [hnid, hdid, hncont]
      simp only [chunksOf, List.filter_append]
      rw [filter_bne_then_beq_nil, newRows_filter_self _ did hamem,
          List.nil_append]
      constructor
      · rw [hass.2.1, hro, hass.2.2.2.2, hlen]
        simp
      · rw [hass.1, hrt]
    · rw [← hxy, if_neg (by simp [hyid])]
      simp only [chunksOf, List.filter_append]
      rw [filter_filter_of_ne _ did y.id hyid,
          newRows_filter_ne _ did y.id hamem hyid, List.append_nil]
      have hh := hInv.2.2.2 y hy
      simp only [chunksOf] at hh
      exact hh

theorem Inv_update (st : State V) (uid did : Nat) (newTitle : Option String)
    (newContent : Option (List Char)) (gen : List Char → V) (hInv : Inv st) :
    Inv (update_document st uid did newTitle newContent gen).2 := by
  rcases hgo : getOwned st did uid with _ | d
  · simp only [update_document, hgo]
    exact hInv
  · have hdid := (getOwned_some st did uid d hgo).2.1
    have hdmem := (getOwned_some st did uid d hgo).1
    simp only [update_document, hgo]
    rcases newContent with _ | c
    · dsimp only
      cases newTitle with
      | none => exact Inv_docs_replace st did d d hInv hdmem hdid rfl rfl
      | some t =>
        exact Inv_docs_replace st did d { d with title := t } hInv hdmem hdid rfl rfl
    · dsimp only
      by_cases hne : d.content ≠ c
      · rw [if_pos hne]
        cases newTitle with
        | none =>
          exact Inv_update_reprocess st did d
            { d with content := c, processed := true } c gen hInv hdmem hdid rfl rfl
        | some t =>
          exact Inv_update_reprocess st did d
            { d with title := t, content := c, processed := true } c gen hInv
            hdmem hdid rfl rfl
      · rw [if_neg hne]
        cases newTitle with
        | none => exact Inv_docs_replace st did d d hInv hdmem hdid rfl rfl
        | some t =>
          exact Inv_docs_replace st did d { d with title := t } hInv hdmem hdid rfl rfl

theorem Inv_del (st : State V) (uid did : Nat) (hInv : Inv st) :
    Inv (delete_document st uid did).2 := by
  rcases hgo : getOwned st did uid with _ | d
  · simp only [delete_document, hgo]
    exact hInv
  · simp only [delete_document, hgo]
    refine ⟨?_, ?_, ?_, ?_⟩
    · intro x hx
      show x.id < st.nextDocId
      exact hInv.1 x (List.mem_of_mem_filter hx)
    · intro x1 h1 x2 h2 he
      exact hInv.2.1 x1 (List.mem_of_mem_filter h1) x2 (List.mem_of_mem_filter h2) he
    · intro ch hc
      show ch.document_id < st.nextDocId
      exact hInv.2.2.1 ch (List.mem_of_mem_filter hc)
    · intro x hx
      have hxmem := List.mem_of_mem_filter hx
      have hxne : x.id ≠ did := by
        have := (List.mem_filter.mp hx).2
        simpa using this
      simp only [chunksOf]
      rw [filter_filter_of_ne st.chunks did x.id hxne]
      have hh := hInv.2.2.2 x hxmem
      simp only [chunksOf] at hh
      exact hh

theorem Inv_of_reachable (st : State V) (h : Reachable st) : Inv st := by
  induction h with
  | init => exact Inv_init
  | create st2 h2 uid title content gen failAt ih =>
      exact Inv_create st2 uid title content gen failAt ih
  | update st2 h2 uid did nt nc gen ih => exact Inv_update st2 uid did nt nc gen ih
  | del st2 h2 uid did ih => exact Inv_del st2 uid did ih

/-- C8: in every state reachable through create/update/delete, each
document's chunk rows carry a dense zero-based order sequence `0..N-1`
reflecting the Chunker's output on the document's content,
`(document_id, chunk_order)` is unique per document, and `get_document_chunks`
returns exactly the document's chunk rows sorted strictly by `chunk_order`
ascending. -/
theorem chunk_order_dense_sorted (st : State V) (h : Reachable st) :
    (∀ d ∈ st.docs,
      (chunksOf st d.id).map (fun x => x.chunk_order)
        = List.range (chunksOf st d.id).length ∧
      (chunksOf st d.id).map (fun x => x.chunk_text)
        = chunk_text d.content 500 50) ∧
    (∀ d ∈ st.docs, ∀ c1 ∈ chunksOf st d.id, ∀ c2 ∈ chunksOf st d.id,
      c1.chunk_order = c2.chunk_order → c1 = c2) ∧
    (∀ uid did l, get_document_chunks st uid did = .ok l →
      l = chunksOf st did ∧
      List.Chain' (fun a b => a.chunk_order < b.chunk_order) l) := by
  have hInv := Inv_of_reachable st h
  refine ⟨hInv.2.2.2, ?_, ?_⟩
  · intro d hd c1 h1 c2 h2 he
    have hmap := (hInv.2.2.2 d hd).1
    have hmap2 : (chunksOf st d.id).map (fun x => x.chunk_order)
        = (List.range (chunksOf st d.id).length).map (· + 0) := by
      rw [hmap]
      simp
    exact inj_of_map_range _ _ _ _ hmap2 c1 h1 c2 h2 he
  · intro uid did l hl
    rcases hgo : getOwned st did uid with _ | d
    · simp only [get_document_chunks, hgo] at hl
      exact absurd hl (by simp)
    · simp only [get_document_chunks, hgo, Except.ok.injEq] at hl
      have hdid : d.id = did := (getOwned_some st did uid d hgo).2.1
      have hdmem : d ∈ st.docs := (getOwned_some st did uid d hgo).1
      have hmap := (hInv.2.2.2 d hdmem).1
      rw [hdid] at hmap
      have hmap2 : (chunksOf st did).map (fun x => x.chunk_order)
          = (List.range (chunksOf st did).length).map (· + 0) := by
        rw [hmap]
        simp
      have hchain := chain_lt_of_map_range (fun x => x.chunk_order)
        (chunksOf st did) _ 0 hmap2
      have hchain_le : List.Chain'
          (fun a b : ChunkRow => a.chunk_order ≤ b.chunk_order)
          (chunksOf st did) :=
        List.Chain'.imp (fun a b hab => Nat.le_of_lt hab) hchain
      have hsort := sortByOrder_of_chain _ hchain_le
      rw [hsort] at hl
      constructor
      · exact hl.symm
      · rw [← hl]
        exact hchain

/-- Witness for `chunk_order_dense_sorted`: the state after one create on
the empty database. -/
theorem chunk_order_dense_sorted_witness :
    (∀ d ∈ (create_document (⟨[], [], 0, 0, ⟨[], 0⟩, ⟨[], 0⟩⟩ : State Nat) 1 "t"
        ['a'] (fun _ => 0) none).2.docs,
      (chunksOf (create_document (⟨[], [], 0, 0, ⟨[], 0⟩, ⟨[], 0⟩⟩ : State Nat) 1 "t"
          ['a'] (fun _ => 0) none).2 d.id).map (fun x => x.chunk_order)
        = List.range (chunksOf (create_document
            (⟨[], [], 0, 0, ⟨[], 0⟩, ⟨[], 0⟩⟩ : State Nat) 1 "t"
            ['a'] (fun _ => 0) none).2 d.id).length ∧
      (chunksOf (create_document (⟨[], [], 0, 0, ⟨[], 0⟩, ⟨[], 0⟩⟩ : State Nat) 1 "t"
          ['a'] (fun _ => 0) none).2 d.id).map (fun x => x.chunk_text)
        = chunk_text d.content 500 50) ∧
    (∀ d ∈ (create_document (⟨[], [], 0, 0, ⟨[], 0⟩, ⟨[], 0⟩⟩ : State Nat) 1 "t"
        ['a'] (fun _ => 0) none).2.docs,
      ∀ c1 ∈ chunksOf (create_document (⟨[], [], 0, 0, ⟨[], 0⟩, ⟨[], 0⟩⟩ : State Nat)
          1 "t" ['a'] (fun _ => 0) none).2 d.id,
      ∀ c2 ∈ chunksOf (create_document (⟨[], [], 0, 0, ⟨[], 0⟩, ⟨[], 0⟩⟩ : State Nat)
          1 "t" ['a'] (fun _ => 0) none).2 d.id,
      c1.chunk_order = c2.chunk_order → c1 = c2) ∧
    (∀ uid did l, get_document_chunks (create_document
        (⟨[], [], 0, 0, ⟨[], 0⟩, ⟨[], 0⟩⟩ : State Nat) 1 "t"
        ['a'] (fun _ => 0) none).2 uid did = .ok l →
      l = chunksOf (create_document (⟨[], [], 0, 0, ⟨[], 0⟩, ⟨[], 0⟩⟩ : State Nat)
          1 "t" ['a'] (fun _ => 0) none).2 did ∧
      List.Chain' (fun a b => a.chunk_order < b.chunk_order) l) :=
  chunk_order_dense_sorted _
    (Reachable.create _ Reachable.init 1 "t" ['a'] (fun _ => 0) none)


/-! ## Claim C9: login does not reveal whether the email is registered -/

/-- C9: a wrong password for an existing email and a nonexistent email
produce the identical `InvalidCredentialsException` — same 401 status and
same default detail — so login responses carry no user-enumeration
signal. -/
theorem login_no_user_enumeration (verify : String → String → Bool)
    (users : List UserRow) (e1 p1 e2 p2 : String) (u : UserRow)
    (h1 : users.find? (fun x => x.email == e1) = some u)
    (h2 : verify p1 u.hashed_password = false)
    (h3 : users.find? (fun x => x.email == e2) = none) :
    login_for_access_token verify users e1 p1 = .error .invalidCredentials ∧
    login_for_access_token verify users e2 p2 = .error .invalidCredentials ∧
    login_for_access_token verify users e1 p1
      = login_for_access_token verify users e2 p2 ∧
    errStatus .invalidCredentials = 401 ∧
    errDetail .invalidCredentials = "Could not validate credentials" := by
  have hl1 : login_for_access_token verify users e1 p1
      = .error .invalidCredentials := by
    simp [login_for_access_token, h1, h2]
  have hl2 : login_for_access_token verify users e2 p2
      = .error .invalidCredentials := by
    simp [login_for_access_token, h3]
  exact ⟨hl1, hl2, by rw [hl1, hl2], rfl, rfl⟩

/-- Witness for `login_no_user_enumeration` at a concrete user table. -/
theorem login_no_user_enumeration_witness :
    login_for_access_token (fun p hsh => p == hsh)
        [⟨1, "a@b.c", "secret", true⟩] "a@b.c" "wrong"
      = .error .invalidCredentials ∧
    login_for_access_token (fun p hsh => p == hsh)
        [⟨1, "a@b.c", "secret", true⟩] "no@b.c" "whatever"
      = .error .invalidCredentials ∧
    login_for_access_token (fun p hsh => p == hsh)
        [⟨1, "a@b.c", "secret", true⟩] "a@b.c" "wrong"
      = login_for_access_token (fun p hsh => p == hsh)
          [⟨1, "a@b.c", "secret", true⟩] "no@b.c" "whatever" := by
  have h := login_no_user_enumeration (fun p hsh => p == hsh)
    [⟨1, "a@b.c", "secret", true⟩] "a@b.c" "wrong" "no@b.c" "whatever"
    ⟨1, "a@b.c", "secret", true⟩ (by decide) (by decide) (by decide)
  exact ⟨h.1, h.2.1, h.2.2.1⟩

end DocuCon
